import Mathlib

/-!
# Verification of the `ldap_sync` synchronization engine

Shallow embedding of the repository's three source files
(`main.py`, `db.py`, `config.py`) and proofs of the specification claims.

Conventions of the embedding:

* Python strings are modelled as `List Char`.
* Python machine-independent `int` is `Nat` (all values involved are
  non-negative).
* Fallible operations return `Option`/`Except`.
* External library calls (the `hashlib` MD5 digest, the `uuid` GUID
  decoding, the LDAP client, the two database client libraries) are
  modelled at their interface boundary: as function parameters, as fields
  carrying the already-decoded value, or as an abstract backend function.
* Recursive functions whose Python counterparts recurse on a
  non-structural argument take an explicit fuel argument large enough to
  be unreachable; this keeps every definition executable by `decide`/`rfl`.
-/

namespace LdapSync

/-- The digit alphabet of `baseN` in `main.py` (default `numerals`
argument): `0123456789ABCDEFGHIJKLMNOPQRSTUVWXYZ_`, 37 symbols. -/
def numerals : List Char := "0123456789ABCDEFGHIJKLMNOPQRSTUVWXYZ_".toList

/-- Fuel-driven body of `baseN` from `main.py`:

    def baseN(num, b, numerals='0123456789ABCDEFGHIJKLMNOPQRSTUVWXYZ_'):
        return ((num == 0) and numerals[0]) or
               (baseN(num // b, b, numerals).lstrip(numerals[0]) + numerals[num % b])

For `num == 0` the `and`/`or` chain returns `numerals[0]`; otherwise it
returns the recursive encoding of `num // b` with leading `numerals[0]`
characters stripped, followed by the digit for `num % b`.  For `b <= 1`
the Python recursion would never terminate; it is never called that way
(the program only uses `b = 37`) and the fuel-exhausted / degenerate
branches return `[]`. -/
def baseNGo : Nat → Nat → Nat → List Char
  | 0, _, _ => []
  | fuel + 1, num, b =>
    if num = 0 then [numerals.getD 0 ' ']
    else if b ≤ 1 then []
    else (baseNGo fuel (num / b) b).dropWhile (fun c => c == numerals.getD 0 ' ')
          ++ [numerals.getD (num % b) ' ']

/-- `baseN num b` from `main.py` (fuel `num + 1` always suffices since the
recursive argument `num / b` strictly decreases for `b ≥ 2`). -/
def baseN (num b : Nat) : List Char := baseNGo (num + 1) num b

/-- Modelled from the spec: the digits of `n` in radix `b`, most
significant digit first, with no digits at all for `n = 0`
(fuel-driven; fuel `n + 1` always suffices). -/
def baseDigitsGo : Nat → Nat → Nat → List Char
  | 0, _, _ => []
  | fuel + 1, n, b =>
    if n = 0 then []
    else if b ≤ 1 then []
    else baseDigitsGo fuel (n / b) b ++ [numerals.getD (n % b) ' ']

/-- Modelled from the spec: `baseEncode(n, b)` — the radix-`b` rendering
of `n` over the alphabet `numerals`, most significant digit first, with
`0` encoding to the single symbol `"0"`. -/
def baseEncode (n b : Nat) : List Char :=
  if n = 0 then [numerals.getD 0 ' '] else baseDigitsGo (n + 1) n b

/-- Index of a character in the `numerals` alphabet (0 for characters
outside the alphabet; round-trip theorems only apply it to alphabet
characters). -/
def digitVal (c : Char) : Nat :=
  match numerals.findIdx? (fun d => d == c) with
  | some i => i
  | none => 0

/-- Modelled from the spec: the inverse of `baseEncode` at radix 37 —
interpret a digit string most-significant-first over `numerals`. -/
def baseDecode (s : List Char) : Nat :=
  s.foldl (fun acc c => acc * 37 + digitVal c) 0

/-- Value of one hexadecimal digit, as accepted by Python `int(s, 16)`. -/
def hexDigit? (c : Char) : Option Nat :=
  if '0' ≤ c ∧ c ≤ '9' then some (c.toNat - '0'.toNat)
  else if 'a' ≤ c ∧ c ≤ 'f' then some (c.toNat - 'a'.toNat + 10)
  else if 'A' ≤ c ∧ c ≤ 'F' then some (c.toNat - 'A'.toNat + 10)
  else none

/-- Python `int(s, 16)` restricted to plain hexadecimal digit strings
(the only shape the program feeds it: `uuid.hex` renderings and
`hashlib` hex digests); `none` models the `ValueError` on anything
else. -/
def hexToNat? (s : List Char) : Option Nat :=
  if s = [] then none
  else s.foldl (fun acc c =>
    match acc, hexDigit? c with
    | some a, some d => some (a * 16 + d)
    | _, _ => none) (some 0)

/-- `generate_credentials(ldap_guid, key)` from `main.py`:

    return f'L0_{baseN(int(ldap_guid, 16), 37)}',
           f'P0_{baseN(int(hashlib.md5((ldap_guid + key).encode()).hexdigest(), 16), 37)}'

The MD5 hex digest is an external `hashlib` call, taken as the function
parameter `md5hex` (mapping the input string to its hex digest). -/
def generate_credentials (md5hex : List Char → List Char)
    (ldap_guid key : List Char) : Option (List Char × List Char) := do
  let n ← hexToNat? ldap_guid
  let m ← hexToNat? (md5hex (ldap_guid ++ key))
  pure ("L0_".toList ++ baseN n 37, "P0_".toList ++ baseN m 37)

/-! ## Record serialization (`to_xml` in `main.py`) -/

/-- Escaping of text data performed by `xml.dom.minidom` when writing a
text node (external library behaviour, `minidom._write_data`): the
sequential replacements `& → &amp;`, `< → &lt;`, `" → &quot;`,
`> → &gt;`.  Because `&` is replaced first and no later replacement
introduces a character that an earlier one rewrites, the sequential
replacements coincide with this character-wise map. -/
def escChar (c : Char) : List Char :=
  if c = '&' then "&amp;".toList
  else if c = '<' then "&lt;".toList
  else if c = '"' then "&quot;".toList
  else if c = '>' then "&gt;".toList
  else [c]

/-- Escape a whole text value (see `escChar`). -/
def escapeXml (v : List Char) : List Char := (v.map escChar).flatten

/-- The document header written by `minidom.Document.toxml(encoding='UTF-8')`. -/
def xmlHeader : List Char :=
  "<?xml version=\"1.0\" encoding=\"UTF-8\"?>".toList

/-- One serialized child element `<k>escaped(v)</k>` as written by
`minidom` for an element with a single text child. -/
def childXml (kv : List Char × List Char) : List Char :=
  '<' :: kv.1 ++ '>' :: escapeXml kv.2 ++ '<' :: '/' :: kv.1 ++ ['>']

/-- `to_xml(object_dict)` from `main.py`: a `minidom` document with root
element `object` and one child element per dictionary entry holding the
entry's value as a text node, rendered by `toxml(encoding='UTF-8')`.
The dictionary is modelled as its entry list (Python dictionaries
iterate in insertion order).  An element with no children is rendered
self-closing by `minidom`; a child element always has its (possibly
empty) text node as a child, hence renders as `<k>…</k>`. -/
def to_xml (object_dict : List (List Char × List Char)) : List Char :=
  xmlHeader ++
    (if object_dict = [] then "<object/>".toList
     else "<object>".toList ++ (object_dict.map childXml).flatten
          ++ "</object>".toList)

/-- Drop a literal expected prefix, or fail. -/
def dropPre : List Char → List Char → Option (List Char)
  | [], l => some l
  | _, [] => none
  | p :: ps, c :: cs => if p = c then dropPre ps cs else none

/-- Modelled from the spec: markup re-parsing of an element name — the
characters up to the closing `>` of the start tag. -/
def parseName : List Char → Option (List Char × List Char)
  | [] => none
  | c :: cs =>
    if c = '>' then some ([], cs)
    else (parseName cs).map (fun p => (c :: p.1, p.2))

/-- Modelled from the spec: markup re-parsing of text content — the
decoded characters up to the next `<` (which is left in the remainder),
resolving the four entity references the serializer emits. -/
def parseText : List Char → Option (List Char × List Char)
  | [] => none
  | c :: cs =>
    if c = '<' then some ([], c :: cs)
    else if c = '&' then
      match cs with
      | 'a' :: 'm' :: 'p' :: ';' :: r => (parseText r).map (fun p => ('&' :: p.1, p.2))
      | 'l' :: 't' :: ';' :: r => (parseText r).map (fun p => ('<' :: p.1, p.2))
      | 'q' :: 'u' :: 'o' :: 't' :: ';' :: r => (parseText r).map (fun p => ('"' :: p.1, p.2))
      | 'g' :: 't' :: ';' :: r => (parseText r).map (fun p => ('>' :: p.1, p.2))
      | _ => none
    else (parseText cs).map (fun p => (c :: p.1, p.2))

/-- Modelled from the spec: markup re-parsing of the children of the root
`object` element — a sequence of `<name>text</name>` elements closed by
`</object>` at the end of input.  Fuel-driven (one unit per child); the
third argument receives the result of matching the input against the
closing `</object>` tag. -/
def parseChildrenGo :
    Nat → List Char → Option (List Char) → Option (List (List Char × List Char))
  | _, _, some r => if r = [] then some [] else none
  | 0, _, none => none
  | _ + 1, [], none => none
  | fuel + 1, '<' :: rest, none =>
    match parseName rest with
    | none => none
    | some (n, r1) =>
      match parseText r1 with
      | none => none
      | some (t, r2) =>
        match dropPre ('<' :: '/' :: n ++ ['>']) r2 with
        | none => none
        | some r3 =>
          match parseChildrenGo fuel r3 (dropPre "</object>".toList r3) with
          | none => none
          | some kids => some ((n, t) :: kids)
  | _ + 1, _, none => none

/-- Entry point for child re-parsing (see `parseChildrenGo`). -/
def parseChildren (fuel : Nat) (l : List Char) :
    Option (List (List Char × List Char)) :=
  parseChildrenGo fuel l (dropPre "</object>".toList l)

/-- Modelled from the spec: parse a serialized entity document back into
its entry list — header, root `object` element, one entry per child. -/
def parseXmlDoc (l : List Char) : Option (List (List Char × List Char)) :=
  match dropPre xmlHeader l with
  | none => none
  | some r =>
    match dropPre "<object/>".toList r with
    | some r2 => if r2 = [] then some [] else none
    | none =>
      match dropPre "<object>".toList r with
      | none => none
      | some r2 => parseChildren r2.length r2

/-- A well-formed element name: non-empty and free of markup-special
characters (true of every directory attribute name and of the
synthesized `dn`/`objectGUID`/`login`/`password` keys). -/
def nameOk (k : List Char) : Bool :=
  !(k.isEmpty) && k.all (fun c =>
    !(c == '<') && !(c == '>') && !(c == '&') && !(c == '/') && !(c == '"'))

/-! ## Entity extraction (`__main__` in `main.py`) -/

/-- A raw directory group entry as delivered by the LDAP client after
external decoding: `dn` is the distinguished name (`[]` models the
falsy DN of a referral stub), `objectGUID` is the canonical uppercase
hyphenated rendering `str(uuid.UUID(bytes_le=…)).upper()` produced by
the external `uuid` library, and `attrs` lists the remaining attributes
with their first value decoded to text. -/
structure GroupEntry where
  dn : List Char
  objectGUID : List Char
  attrs : List (List Char × List Char)
deriving DecidableEq, Repr

/-- The per-group dictionary built by the group extraction loop
(`dict(dn=dn, objectGUID=…)` plus the copied attributes). -/
structure GroupRec where
  dn : List Char
  objectGUID : List Char
  attrs : List (List Char × List Char)
deriving DecidableEq, Repr

/-- A raw directory user entry (same conventions as `GroupEntry`);
`guidHex` is `uuid.hex.upper()`, the 32-character hex rendering fed to
`generate_credentials`; `memberOf = none` models the attribute being
absent from the entry. -/
structure UserEntry where
  dn : List Char
  objectGUID : List Char
  guidHex : List Char
  memberOf : Option (List (List Char))
  attrs : List (List Char × List Char)
deriving DecidableEq, Repr

/-- The person dictionary built by the person extraction loop.  `creds`
holds the derived `(login, password)` pair; `none` would model the
`ValueError` Python would raise on a non-hex GUID rendering, which
cannot occur for genuine `uuid` output. -/
structure PersonRec where
  dn : List Char
  objectGUID : List Char
  creds : Option (List Char × List Char)
  attrs : List (List Char × List Char)
deriving DecidableEq, Repr

/-- A membership edge `(str(guid).upper(), groups[memberOf]['objectGUID'])`. -/
abbrev Edge := List Char × List Char

/-- Structural attributes excluded from the copied attribute map
(`['member', 'memberOf', 'objectGUID']` in both extraction loops). -/
def structuralAttrs : List (List Char) :=
  ["member".toList, "memberOf".toList, "objectGUID".toList]

/-- The attribute-copy loop common to both extractions: skip the
structural attributes and falsy (empty) attribute names; keep the first
value of everything else (the values are already first-value decoded in
the entry model). -/
def keptAttrs (attrs : List (List Char × List Char)) :
    List (List Char × List Char) :=
  attrs.filter (fun kv => !(structuralAttrs.contains kv.1) && !(kv.1.isEmpty))

/-- Python dictionary insertion on an association list: overwrite an
existing key in place, otherwise append. -/
def dictInsert {α : Type} (k : List Char) (v : α) :
    List (List Char × α) → List (List Char × α)
  | [] => [(k, v)]
  | (k', v') :: rest =>
    if k = k' then (k, v) :: rest else (k', v') :: dictInsert k v rest

/-- Python dictionary lookup on an association list. -/
def dictLookup {α : Type} (k : List Char) :
    List (List Char × α) → Option α
  | [] => none
  | (k', v) :: rest => if k = k' then some v else dictLookup k rest

/-- The group extraction loop (`main.py` lines 77–88): for every
non-referral entry build the group dictionary keyed by DN. -/
def extractGroups (entries : List GroupEntry) :
    List (List Char × GroupRec) :=
  entries.foldl
    (fun acc e =>
      if e.dn = [] then acc
      else dictInsert e.dn ⟨e.dn, e.objectGUID, keptAttrs e.attrs⟩ acc)
    []

/-- The `for memberOf in …` loop of the person extraction: one edge per
group reference that resolves in the group index, in reference order. -/
def resolveRefs (groups : List (List Char × GroupRec))
    (guidStr : List Char) : List (List Char) → List Edge
  | [] => []
  | m :: ms =>
    match dictLookup m groups with
    | some g => (guidStr, g.objectGUID) :: resolveRefs groups guidStr ms
    | none => resolveRefs groups guidStr ms

/-- The person dictionary built for an entry that is in at least one
known group (`main.py` lines 123–130). -/
def mkPerson (md5hex : List Char → List Char) (key : List Char)
    (e : UserEntry) : PersonRec :=
  ⟨e.dn, e.objectGUID, generate_credentials md5hex e.guidHex key,
    keptAttrs e.attrs⟩

/-- The per-entry body of the person extraction loop (`main.py` lines
107–132), for a non-referral entry: no `memberOf` attribute (or an
empty one) yields nothing; otherwise the resolving references become
edges and the person is kept exactly when at least one reference
resolved (`in_group`). -/
def processEntry (groups : List (List Char × GroupRec))
    (md5hex : List Char → List Char) (key : List Char) (e : UserEntry) :
    Option PersonRec × List Edge :=
  match e.memberOf with
  | none => (none, [])
  | some ms =>
    if ms = [] then (none, [])
    else
      let edges := resolveRefs groups e.objectGUID ms
      if edges = [] then (none, [])
      else (some (mkPerson md5hex key e), edges)

/-- One iteration of `for dn, attrs in res_data` in the user loop:
referral stubs contribute nothing; otherwise the entry's person (if
any) and edges are appended to the running lists. -/
def extractStep (groups : List (List Char × GroupRec))
    (md5hex : List Char → List Char) (key : List Char)
    (acc : List PersonRec × List Edge) (e : UserEntry) :
    List PersonRec × List Edge :=
  if e.dn = [] then acc
  else
    let pe := processEntry groups md5hex key e
    (acc.1 ++ pe.1.toList, acc.2 ++ pe.2)

/-- Person extraction over a batch of raw entries. -/
def extractPersons (groups : List (List Char × GroupRec))
    (md5hex : List Char → List Char) (key : List Char)
    (entries : List UserEntry) : List PersonRec × List Edge :=
  entries.foldl (extractStep groups md5hex key) ([], [])

/-! ## The paged user search (`main.py` lines 92–139) -/

/-- One server response to `search_ext`/`result3`: the page's entries
and the paging control — `none` when the server returned no RFC 2696
control at all, `some cookie` when it did (`some []` is the empty
end-of-paging cookie, which Python treats as falsy). -/
structure PageResp where
  entries : List UserEntry
  control : Option (List Char)
deriving Repr

/-- The running state of one cycle's user search. -/
abbrev Extract := List PersonRec × List Edge

/-- Outcome of the paging loop: the accumulated persons and edges, the
final value of the `pages` counter (= the number of search calls made),
and whether the `The server ignores RFC 2696 control` warning was
logged. -/
structure PagingOk where
  acc : Extract
  pages : Nat
  warned : Bool
deriving DecidableEq, Repr

/-- The `while True` paging loop of `main.py`, fuel-driven (fuel 1000
always suffices: the loop increments `pages` each iteration and raises
once `pages > 999`).  `.error ()` is the
`Exception('users search pages > 999 infinite loop')`.  Each iteration
increments `pages`, raises past the bound, performs the search for the
current cookie, processes the page's entries, and then inspects the
paging control: no control → warn and stop; empty cookie → stop;
otherwise continue with the returned cookie. -/
def pagingGo (groups : List (List Char × GroupRec))
    (md5hex : List Char → List Char) (key : List Char)
    (srv : List Char → PageResp) :
    Nat → List Char → Nat → Extract → Except Unit PagingOk
  | 0, _, _, _ => .error ()
  | fuel + 1, cookie, pages, acc =>
    if pages + 1 > 999 then .error ()
    else
      let resp := srv cookie
      let acc' := resp.entries.foldl (extractStep groups md5hex key) acc
      match resp.control with
      | none => .ok ⟨acc', pages + 1, true⟩
      | some c =>
        if c = [] then .ok ⟨acc', pages + 1, false⟩
        else pagingGo groups md5hex key srv fuel c (pages + 1) acc'

/-- The paging loop as entered by the program: empty initial cookie,
`pages = 0`, empty person/membership lists. -/
def usersPaging (groups : List (List Char × GroupRec))
    (md5hex : List Char → List Char) (key : List Char)
    (srv : List Char → PageResp) : Except Unit PagingOk :=
  pagingGo groups md5hex key srv 1000 [] 0 ([], [])

/-! ## Configuration validation (`config.py`) and the main loop -/

/-- `Config.check_single_db` from `config.py`: count the truthy backend
blocks among `oracle` and `pg`; more than one or fewer than one is a
`ValueError` (surfacing as a pydantic `ValidationError`). -/
def check_single_db (oracle pg : Bool) : Except (List Char) Unit :=
  let i := (if oracle then 1 else 0) + (if pg then 1 else 0)
  if i > 1 then
    .error "oracle AND pg keys present in config, simultaneous use not allowed".toList
  else if i < 1 then
    .error "oracle or pg key not found in config".toList
  else .ok ()

/-- Whether an `Except` result is a success. -/
def isOkB {ε α : Type} : Except ε α → Bool
  | .ok _ => true
  | .error _ => false

/-- The configuration state relevant to the orchestrator model: which
backend blocks are present (truthy) and whether every other pydantic
validation succeeds. -/
structure ConfigModel where
  oracleSet : Bool
  pgSet : Bool
  restOk : Bool
deriving DecidableEq, Repr

/-- `Config.model_validate` succeeds iff all field validations and
`check_single_db` succeed. -/
def configValid (c : ConfigModel) : Bool :=
  c.restOk && isOkB (check_single_db c.oracleSet c.pgSet)

/-- How one iteration of the `while True` main loop ends. -/
inductive IterOutcome
  | retryConfig
  | retryBind
  | crashed
  | completed
deriving DecidableEq, Repr

/-- Observable trace of one main-loop iteration: whether a directory
connection/bind was attempted, and how the iteration ended. -/
structure IterTrace where
  bindAttempted : Bool
  outcome : IterOutcome
deriving DecidableEq, Repr

/-- One iteration of the `while True` loop in `main.py` (lines 49–159).
Config validation failure is caught (`except ValidationError`) and
retried after 60 s, *before any directory connection is attempted*;
directory connect/bind failure is caught (`except ldap.LDAPError`) and
retried after the configured interval.  The page-bound
`raise Exception(…)` at line 97 occurs *outside* both `try` blocks: it
propagates out of the `while True` loop and terminates the process,
which the model records as `.crashed`.  A successful paging loop
completes the cycle. -/
def mainIteration (cfg : ConfigModel) (bindOk : Bool)
    (gentries : List GroupEntry) (md5hex : List Char → List Char)
    (key : List Char) (srv : List Char → PageResp) : IterTrace :=
  if !(configValid cfg) then ⟨false, .retryConfig⟩
  else if !bindOk then ⟨true, .retryBind⟩
  else
    let groups := extractGroups gentries
    match usersPaging groups md5hex key srv with
    | .error _ => ⟨true, .crashed⟩
    | .ok _ => ⟨true, .completed⟩

/-! ## Persistence Variant A: `PgDatabase` (`db.py` lines 25–70) -/

namespace PgDatabase

/-- One cursor call made by `PgDatabase.save_and_sync`: the three item
procedures and the finalize procedure. -/
inductive PgCall
  | group (xml : List Char)
  | person (xml : List Char)
  | membership (personGuid groupGuid : List Char)
  | runSync
deriving DecidableEq, Repr

/-- The literal success sentinel `'(0,Success)'` each fetched result is
compared against. -/
def pgSuccess : List Char := "(0,Success)".toList

/-- Observable trace of one `save_and_sync` run: the cursor calls
executed in order, the item errors logged (identified by the offending
call), and how many times `conn.commit()` ran. -/
structure PgRun where
  calls : List PgCall
  errors : List PgCall
  commits : Nat
deriving DecidableEq, Repr

/-- The full call sequence `save_and_sync` issues: every group, every
person, every membership, then `p_run_sync`. -/
def pgAllCalls (groups persons : List (List Char))
    (memberships : List (List Char × List Char)) : List PgCall :=
  groups.map .group ++ persons.map .person
    ++ memberships.map (fun pg => .membership pg.1 pg.2) ++ [.runSync]

/-- Execute one cursor call against the backend (modelled as a function
from calls to either a `psycopg2.Error` or the fetched result string).
A raised `psycopg2.Error` aborts the run (`.error`); otherwise the
result is compared with the success sentinel and a mismatch is logged
as an item error, after which processing continues. -/
def pgStep (backend : PgCall → Except Unit (List Char)) (st : PgRun)
    (c : PgCall) : Except PgRun PgRun :=
  match backend c with
  | .error _ => .error { st with calls := st.calls ++ [c] }
  | .ok r =>
    .ok { st with
          calls := st.calls ++ [c],
          errors := if r = pgSuccess then st.errors else st.errors ++ [c] }

/-- Run a list of cursor calls sequentially, stopping at the first
raised backend error. -/
def pgRunList (backend : PgCall → Except Unit (List Char)) :
    PgRun → List PgCall → Except PgRun PgRun
  | st, [] => .ok st
  | st, c :: cs =>
    match pgStep backend st c with
    | .error st' => .error st'
    | .ok st' => pgRunList backend st' cs

/-- `PgDatabase.save_and_sync`: one connection, `autocommit = False`;
each group/person/membership call's fetched result is checked against
the sentinel (mismatches logged, processing continues), then
`p_run_sync` is called and checked, then `conn.commit()` runs once.
A `psycopg2.Error` anywhere is caught by the surrounding
`except psycopg2.Error`, which logs it; no commit happens then. -/
def save_and_sync (backend : PgCall → Except Unit (List Char))
    (groups persons : List (List Char))
    (memberships : List (List Char × List Char)) : PgRun :=
  match pgRunList backend ⟨[], [], 0⟩ (pgAllCalls groups persons memberships) with
  | .ok st => { st with commits := st.commits + 1 }
  | .error st => st

/-- Whether a successfully fetched result mismatches the sentinel (the
condition under which an item error is logged). -/
def pgMismatch (backend : PgCall → Except Unit (List Char))
    (c : PgCall) : Bool :=
  match backend c with
  | .ok r => if r = pgSuccess then false else true
  | .error _ => true

end PgDatabase

/-! ## Persistence Variant B: `OracleDatabase` (`db.py` lines 73–137) -/

namespace OracleDatabase

/-- The SQL text constants of `OracleDatabase`. -/
def ora_api : List Char := "os_eqm.ldap_sync_api".toList

/-- `OracleDatabase.groups_sql`. -/
def groups_sql : List Char :=
  "begin ".toList ++ ora_api ++ ".p_get_group(:xml, :code, :msg, :domain); end;".toList

/-- `OracleDatabase.persons_sql`. -/
def persons_sql : List Char :=
  "begin ".toList ++ ora_api ++ ".p_get_person(:xml, :code, :msg, :domain); end;".toList

/-- `OracleDatabase.memberships_sql`. -/
def memberships_sql : List Char :=
  "begin ".toList ++ ora_api
    ++ ".p_get_memberships(:person_guid, :group_guid, :code, :msg, :domain); end;".toList

/-- `OracleDatabase.run_sync_sql`. -/
def run_sync_sql : List Char :=
  "begin ".toList ++ ora_api ++ ".p_run_sync(:code, :msg, 1, :domain); end;".toList

/-- An element of the `items` list handed to `OracleDatabase.save`:
either a serialized document or a `(person_guid, group_guid)` pair. -/
inductive OraItem
  | xmlItem (xml : List Char)
  | pairItem (personGuid groupGuid : List Char)
deriving DecidableEq, Repr

/-- One observable action of the Oracle driver: a cursor execution of a
given SQL text with its payload, or a `conn.commit()`. -/
inductive OraCall
  | execXml (sql xml : List Char)
  | execPair (sql personGuid groupGuid : List Char)
  | execSync (sql : List Char)
  | commit
deriving DecidableEq, Repr

/-- `OracleDatabase.save(cur, sql, items)`: when `sql` is the group or
person SQL, set `target` to `'group'`/`'person'` and execute, for each
item, `self.groups_sql if target == 'groups' else self.persons_sql` —
note the source compares `target` (which is `'group'` or `'person'`)
against the five-letter string `'groups'`, so the comparison is always
false and the person SQL is executed in both cases.  Otherwise execute
the membership SQL per pair.  Out-parameter statuses and per-item
`cx_Oracle.DatabaseError`s only produce log lines and do not change the
call sequence. -/
def save (sql : List Char) (items : List OraItem) : List OraCall :=
  if sql = groups_sql ∨ sql = persons_sql then
    let target := if sql = groups_sql then "group".toList else "person".toList
    items.foldl
      (fun acc it =>
        match it with
        | .xmlItem xml =>
          acc ++ [.execXml
            (if target = "groups".toList then groups_sql else persons_sql) xml]
        | .pairItem _ _ => acc)
      []
  else
    items.foldl
      (fun acc it =>
        match it with
        | .pairItem p g => acc ++ [.execPair memberships_sql p g]
        | .xmlItem _ => acc)
      []

/-- `OracleDatabase.save_and_sync`: one connection with
`autocommit = False`; the three `save` phases in sequence, then the
`p_run_sync` execution, then a single `conn.commit()` — there is no
commit between phases.  (A connection-level `cx_Oracle.DatabaseError`
would abort the whole run; the trace models the run in which the
connection stays alive, which is the case the claim describes.) -/
def save_and_sync (groups persons : List (List Char))
    (memberships : List (List Char × List Char)) : List OraCall :=
  save groups_sql (groups.map .xmlItem)
    ++ save persons_sql (persons.map .xmlItem)
    ++ save memberships_sql (memberships.map (fun pg => .pairItem pg.1 pg.2))
    ++ [.execSync run_sync_sql, .commit]

end OracleDatabase

/-! ## Server-behaviour predicates and concrete fixtures -/

/-- `Serves srv c rs`: starting from cookie `c`, the server `srv`
delivers exactly the response chain `rs` — every response but the last
carries a non-empty continuation cookie leading to the next, and the
last response either carries the empty end-of-paging cookie or carries
no paging control at all. -/
inductive Serves (srv : List Char → PageResp) : List Char → List PageResp → Prop
  | done : ∀ c, (srv c).control = some [] → Serves srv c [srv c]
  | ignored : ∀ c, (srv c).control = none → Serves srv c [srv c]
  | step : ∀ c c' rs, (srv c).control = some c' → c' ≠ [] →
      Serves srv c' rs → Serves srv c (srv c :: rs)

/-- Whether a response chain ends with a response carrying no paging
control (the case in which the loop logs the
`The server ignores RFC 2696 control` warning). -/
def warnedAtEnd : List PageResp → Bool
  | [] => false
  | [r] => r.control.isNone
  | _ :: rs => warnedAtEnd rs

/-- Fixture: a stand-in for the external MD5 hex digest. -/
def md5Ex : List Char → List Char := fun _ => "ff".toList

/-- Fixture: a three-page server — cookie `""` yields cookie `"a"`,
cookie `"a"` yields cookie `"b"`, and any other cookie ends paging. -/
def srvEx : List Char → PageResp := fun c =>
  if c = [] then ⟨[], some ['a']⟩
  else if c = ['a'] then ⟨[], some ['b']⟩
  else ⟨[], some []⟩

/-- Fixture: a server that never returns an end-of-paging signal. -/
def srvBad : List Char → PageResp := fun _ => ⟨[], some ['x']⟩

/-- Fixture: a valid configuration with only the `pg` block. -/
def cfgPgOnly : ConfigModel := ⟨false, true, true⟩

/-- Fixture: a valid configuration with only the `oracle` block. -/
def cfgOracleOnly : ConfigModel := ⟨true, false, true⟩

/-- Fixture: one raw group entry. -/
def gEnt : GroupEntry :=
  ⟨"CN=admins,DC=x".toList, "GG".toList, []⟩

/-- Fixture: one raw user entry referencing the fixture group. -/
def uEnt : UserEntry :=
  ⟨"CN=alice,DC=x".toList, "GU".toList, "aa".toList,
    some ["CN=admins,DC=x".toList], []⟩

/-- Fixture: a backend for Variant A in which only the group document
`"g2"` fails its sentinel check and no call raises. -/
def pgBackendEx : PgDatabase.PgCall → Except Unit (List Char) := fun c =>
  match c with
  | .group xml =>
    if xml = "g2".toList then .ok "(1,boom)".toList else .ok PgDatabase.pgSuccess
  | _ => .ok PgDatabase.pgSuccess

/-! ## Theorems: credential derivation (C3, C4) -/

/-- Definitional unfolding of `baseDigitsGo` at positive fuel. -/
theorem baseDigitsGo_succ (f n b : Nat) :
    baseDigitsGo (f + 1) n b =
      if n = 0 then []
      else if b ≤ 1 then []
      else baseDigitsGo f (n / b) b ++ [numerals.getD (n % b) ' '] := rfl

/-- Definitional unfolding of `baseNGo` at positive fuel. -/
theorem baseNGo_succ (f n b : Nat) :
    baseNGo (f + 1) n b =
      if n = 0 then [numerals.getD 0 ' ']
      else if b ≤ 1 then []
      else (baseNGo f (n / b) b).dropWhile (fun c => c == numerals.getD 0 ' ')
            ++ [numerals.getD (n % b) ' '] := rfl

/-- Fuel irrelevance for `baseDigitsGo`: any fuel above `n` computes the
same digit string. -/
theorem baseDigitsGo_congr (b : Nat) :
    ∀ n f1 f2, n < f1 → n < f2 → baseDigitsGo f1 n b = baseDigitsGo f2 n b := by
  intro n
  induction n using Nat.strong_induction_on with
  | _ n ih =>
    intro f1 f2 h1 h2
    match f1, h1 with
    | f1 + 1, _ =>
    match f2, h2 with
    | f2 + 1, _ =>
    rw [baseDigitsGo_succ, baseDigitsGo_succ]
    by_cases hn : n = 0
    · simp [hn]
    · by_cases hb : b ≤ 1
      · simp [hn, hb]
      · have hdiv : n / b < n := Nat.div_lt_self (Nat.pos_of_ne_zero hn) (by omega)
        rw [if_neg hn, if_neg hb, if_neg hn, if_neg hb,
          ih (n / b) hdiv f1 f2 (by omega) (by omega)]

/-- Fuel irrelevance for `baseNGo`. -/
theorem baseNGo_congr (b : Nat) :
    ∀ n f1 f2, n < f1 → n < f2 → baseNGo f1 n b = baseNGo f2 n b := by
  intro n
  induction n using Nat.strong_induction_on with
  | _ n ih =>
    intro f1 f2 h1 h2
    match f1, h1 with
    | f1 + 1, _ =>
    match f2, h2 with
    | f2 + 1, _ =>
    rw [baseNGo_succ, baseNGo_succ]
    by_cases hn : n = 0
    · simp [hn]
    · by_cases hb : b ≤ 1
      · simp [hn, hb]
      · have hdiv : n / b < n := Nat.div_lt_self (Nat.pos_of_ne_zero hn) (by omega)
        rw [if_neg hn, if_neg hb, if_neg hn, if_neg hb,
          ih (n / b) hdiv f1 f2 (by omega) (by omega)]

/-- Digits other than the zero digit of the alphabet are not `'0'`. -/
theorem numerals_getD_ne_zero :
    ∀ r, r < 37 → 0 < r → numerals.getD r ' ' ≠ '0' := by decide

/-- A positive number's spec-side digit string starts with a non-zero
digit. -/
theorem baseDigits_leading (n : Nat) (hn : 0 < n) :
    ∃ c t, baseDigitsGo (n + 1) n 37 = c :: t ∧ c ≠ '0' := by
  induction n using Nat.strong_induction_on with
  | _ n ih =>
    have hn' : n ≠ 0 := Nat.pos_iff_ne_zero.mp hn
    rw [baseDigitsGo_succ, if_neg hn', if_neg (by omega : ¬(37 ≤ 1))]
    by_cases hq : n / 37 = 0
    · have h37 : n < 37 := by omega
      have hmod : n % 37 = n := Nat.mod_eq_of_lt h37
      refine ⟨numerals.getD (n % 37) ' ', [], ?_, ?_⟩
      · have hz : baseDigitsGo n (n / 37) 37 = [] := by
          match n, hn with
          | n + 1, _ => rw [baseDigitsGo_succ, if_pos hq]
        rw [hz]; rfl
      · rw [hmod]; exact numerals_getD_ne_zero n h37 hn
    · have hqpos : 0 < n / 37 := Nat.pos_of_ne_zero hq
      have hdiv : n / 37 < n := Nat.div_lt_self hn (by omega)
      obtain ⟨c, t, hct, hc⟩ := ih (n / 37) hdiv hqpos
      have hcongr : baseDigitsGo n (n / 37) 37 = baseDigitsGo (n / 37 + 1) (n / 37) 37 :=
        baseDigitsGo_congr 37 (n / 37) n (n / 37 + 1) hdiv (by omega)
      exact ⟨c, t ++ [numerals.getD (n % 37) ' '], by rw [hcongr, hct]; rfl, hc⟩

/-- **Refinement**: the source's `baseN` at radix 37 computes exactly the
spec's `baseEncode`. -/
theorem baseN_eq_baseEncode : ∀ n, baseN n 37 = baseEncode n 37 := by
  intro n
  induction n using Nat.strong_induction_on with
  | _ n ih =>
    by_cases hn : n = 0
    · subst hn; decide
    · have hpos : 0 < n := Nat.pos_of_ne_zero hn
      have hdiv : n / 37 < n := Nat.div_lt_self hpos (by omega)
      unfold baseN baseEncode
      rw [baseNGo_succ, if_neg hn, if_neg (by omega : ¬(37 ≤ 1)), if_neg hn,
        baseDigitsGo_succ, if_neg hn, if_neg (by omega : ¬(37 ≤ 1))]
      by_cases hq : n / 37 = 0
      · have hz : baseNGo n (n / 37) 37 = [numerals.getD 0 ' '] := by
          match n, hpos with
          | n + 1, _ => rw [baseNGo_succ, if_pos hq]
        have hz' : baseDigitsGo n (n / 37) 37 = [] := by
          match n, hpos with
          | n + 1, _ => rw [baseDigitsGo_succ, if_pos hq]
        rw [hz, hz']
        rfl
      · have hqpos : 0 < n / 37 := Nat.pos_of_ne_zero hq
        have h1 : baseNGo n (n / 37) 37 = baseN (n / 37) 37 := by
          unfold baseN
          exact baseNGo_congr 37 (n / 37) n (n / 37 + 1) hdiv (by omega)
        rw [h1, ih (n / 37) hdiv]
        have h2 : baseEncode (n / 37) 37 = baseDigitsGo (n / 37 + 1) (n / 37) 37 := by
          unfold baseEncode
          rw [if_neg hq]
        obtain ⟨c, t, hct, hc⟩ := baseDigits_leading (n / 37) hqpos
        have h3 : baseDigitsGo n (n / 37) 37 = baseDigitsGo (n / 37 + 1) (n / 37) 37 :=
          baseDigitsGo_congr 37 (n / 37) n (n / 37 + 1) hdiv (by omega)
        rw [h2, hct, h3, hct, List.dropWhile_cons]
        have hcc : (c == numerals.getD 0 ' ') = false := by
          have h0 : numerals.getD 0 ' ' = '0' := rfl
          rw [h0]
          exact beq_eq_false_iff_ne.mpr hc
        rw [hcc]
        simp

/-- Appending one digit multiplies the decoded value by 37 and adds the
digit's value. -/
theorem baseDecode_append (xs : List Char) (c : Char) :
    baseDecode (xs ++ [c]) = baseDecode xs * 37 + digitVal c := by
  simp [baseDecode, List.foldl_append]

/-- Decoding inverts the digit rendering of the alphabet. -/
theorem digitVal_getD : ∀ r, r < 37 → digitVal (numerals.getD r ' ') = r := by decide

/-- Decoding inverts the spec-side digit string. -/
theorem baseDecode_baseDigits : ∀ n, baseDecode (baseDigitsGo (n + 1) n 37) = n := by
  intro n
  induction n using Nat.strong_induction_on with
  | _ n ih =>
    by_cases hn : n = 0
    · subst hn; decide
    · have hpos : 0 < n := Nat.pos_of_ne_zero hn
      have hdiv : n / 37 < n := Nat.div_lt_self hpos (by omega)
      rw [baseDigitsGo_succ, if_neg hn, if_neg (by omega : ¬(37 ≤ 1))]
      have h3 : baseDigitsGo n (n / 37) 37 = baseDigitsGo (n / 37 + 1) (n / 37) 37 :=
        baseDigitsGo_congr 37 (n / 37) n (n / 37 + 1) hdiv (by omega)
      rw [h3, baseDecode_append, ih (n / 37) hdiv,
        digitVal_getD (n % 37) (Nat.mod_lt n (by omega))]
      omega

/-- **C4.** `baseN` at radix 37 encodes `0` as `"0"`, encodes `36` as the
37th alphabet symbol `"_"`, and decoding the encoding returns `n` for
every natural number (in particular for the full 128-bit range, so the
encoding is injective there). -/
theorem baseN_alphabet_and_round_trip :
    baseN 0 37 = "0".toList ∧ baseN 36 37 = "_".toList ∧
      ∀ n, baseDecode (baseN n 37) = n := by
  refine ⟨by decide, by decide, fun n => ?_⟩
  rw [baseN_eq_baseEncode]
  by_cases hn : n = 0
  · subst hn; decide
  · simp only [baseEncode, hn, if_false]
    exact baseDecode_baseDigits n

/-- **C3.** `generate_credentials` is a pure function of its inputs (two
calls with the same inputs yield the same pair by reflexivity), and on
every hex identity string it returns exactly
`login = "L0_" + baseEncode(parseHex(identityHex), 37)` and
`password = "P0_" + baseEncode(parseHex(md5(identityHex + secret)), 37)`. -/
theorem generate_credentials_spec (md5hex : List Char → List Char)
    (ldap_guid key : List Char) (n m : Nat)
    (hg : hexToNat? ldap_guid = some n)
    (hm : hexToNat? (md5hex (ldap_guid ++ key)) = some m) :
    generate_credentials md5hex ldap_guid key =
      some ("L0_".toList ++ baseEncode n 37, "P0_".toList ++ baseEncode m 37) := by
  simp [generate_credentials, hg, hm, baseN_eq_baseEncode]

/-- **C3 witness**: concrete evaluation — identity `"0a"` (value 10,
digit `A`) and digest `"ff"` (value 255 = 6·37 + 33, digits `6X`). -/
theorem generate_credentials_spec_witness :
    generate_credentials md5Ex "0a".toList [] =
      some ("L0_A".toList, "P0_6X".toList) := by
  have h := generate_credentials_spec md5Ex "0a".toList [] 10 255
    (by decide) (by decide)
  rw [h]; decide

/-! ## Theorems: record serialization round trip (C8) -/

/-- Dropping a prefix off itself followed by anything succeeds. -/
theorem dropPre_append (p : List Char) : ∀ r, dropPre p (p ++ r) = some r := by
  induction p with
  | nil => intro r; simp [dropPre]
  | cons c p' ih => intro r; simp [dropPre, ih r]

/-- `escapeXml` on a cons. -/
theorem escapeXml_cons (c : Char) (v : List Char) :
    escapeXml (c :: v) = escChar c ++ escapeXml v := by
  simp [escapeXml]

/-- Re-parsing an element name stops at the first `'>'`. -/
theorem parseName_round (k : List Char) (hk : '>' ∉ k) :
    ∀ r, parseName (k ++ '>' :: r) = some (k, r) := by
  induction k with
  | nil => intro r; simp [parseName]
  | cons c k' ih =>
    intro r
    have hc : ¬ c = '>' := fun h => hk (h ▸ List.mem_cons_self _ _)
    have hk' : '>' ∉ k' := fun h => hk (List.mem_cons_of_mem _ h)
    simp [parseName, hc, ih hk' r]

/-- Text re-parsing inverts the serializer's escaping: the decoded text
is the original value and the remainder starts at the terminating `<`. -/
theorem parseText_escape (v : List Char) :
    ∀ r, parseText (escapeXml v ++ '<' :: r) = some (v, '<' :: r) := by
  induction v with
  | nil =>
    intro r
    show parseText ('<' :: r) = some ([], '<' :: r)
    rw [parseText.eq_def]
    simp
  | cons c v' ih =>
    intro r
    rw [escapeXml_cons, List.append_assoc]
    by_cases h1 : c = '&'
    · subst h1
      show parseText ('&' :: 'a' :: 'm' :: 'p' :: ';' :: (escapeXml v' ++ '<' :: r)) = _
      simp [parseText, ih r]
    by_cases h2 : c = '<'
    · subst h2
      show parseText ('&' :: 'l' :: 't' :: ';' :: (escapeXml v' ++ '<' :: r)) = _
      simp [parseText, ih r]
    by_cases h3 : c = '"'
    · subst h3
      show parseText ('&' :: 'q' :: 'u' :: 'o' :: 't' :: ';' :: (escapeXml v' ++ '<' :: r)) = _
      simp [parseText, ih r]
    by_cases h4 : c = '>'
    · subst h4
      show parseText ('&' :: 'g' :: 't' :: ';' :: (escapeXml v' ++ '<' :: r)) = _
      simp [parseText, ih r]
    · have he : escChar c = [c] := by simp [escChar, h1, h2, h3, h4]
      rw [he, List.singleton_append, parseText.eq_def]
      simp [h1, h2, ih r]

/-- The closing-tag scan fails on a start tag whose name does not begin
with `'/'`. -/
theorem dropPre_close_object (c : Char) (t : List Char) (hc : c ≠ '/') :
    dropPre "</object>".toList ('<' :: c :: t) = none := by
  have h : ¬ ('/' = c) := fun h => hc h.symm
  show dropPre ('<' :: '/' :: "object>".toList) ('<' :: c :: t) = none
  simp [dropPre, h]

/-- Well-formed names contain none of the markup-special characters. -/
theorem nameOk_chars (k : List Char) (hname : nameOk k = true) :
    ∀ c ∈ k, c ≠ '<' ∧ c ≠ '>' ∧ c ≠ '&' ∧ c ≠ '/' ∧ c ≠ '"' := by
  intro c hc
  rw [nameOk, Bool.and_eq_true] at hname
  have hall := List.all_eq_true.mp hname.2 c hc
  simp only [Bool.and_eq_true, Bool.not_eq_true', beq_eq_false_iff_ne] at hall
  exact ⟨hall.1.1.1.1, hall.1.1.1.2, hall.1.1.2, hall.1.2, hall.2⟩

/-- Re-parsing the serialized children recovers the entry list, for any
fuel at least the number of children. -/
theorem parseChildren_round (m : List (List Char × List Char)) :
    ∀ fuel, m.length ≤ fuel → (∀ kv ∈ m, nameOk kv.1 = true) →
      parseChildren fuel ((m.map childXml).flatten ++ "</object>".toList) = some m := by
  induction m with
  | nil =>
    intro fuel _ _
    simp only [List.map_nil, List.flatten_nil, List.nil_append, parseChildren]
    have hd : dropPre "</object>".toList "</object>".toList = some [] := by decide
    rw [hd]
    simp [parseChildrenGo]
  | cons kv m' ih =>
    intro fuel hlen hnames
    match fuel, hlen with
    | fuel + 1, hlen2 =>
    obtain ⟨k, v⟩ := kv
    have hname : nameOk k = true := hnames (k, v) (List.mem_cons_self _ _)
    have hkne : k ≠ [] := by
      intro h
      rw [h] at hname
      exact absurd hname (by decide)
    have hkchars := nameOk_chars k hname
    match k, hkne with
    | k0 :: kt, _ =>
    have hk0 := hkchars k0 (List.mem_cons_self _ _)
    rw [List.map_cons, List.flatten_cons, childXml]
    simp only [List.append_assoc, List.cons_append, List.singleton_append,
      List.nil_append]
    have hgt : '>' ∉ k0 :: kt := by
      intro h
      exact (hkchars '>' h).2.1 rfl
    have hn := parseName_round (k0 :: kt) hgt
      (escapeXml v ++ '<' :: '/' :: k0 :: (kt
        ++ '>' :: ((m'.map childXml).flatten ++ "</object>".toList)))
    simp only [List.cons_append] at hn
    have ht := parseText_escape v ('/' :: k0 :: (kt
      ++ '>' :: ((m'.map childXml).flatten ++ "</object>".toList)))
    have hd := dropPre_append ('<' :: '/' :: k0 :: kt ++ ['>'])
      ((m'.map childXml).flatten ++ "</object>".toList)
    simp only [List.append_assoc, List.cons_append, List.singleton_append,
      List.nil_append] at hd
    have ihres : parseChildrenGo fuel
        ((m'.map childXml).flatten ++ "</object>".toList)
        (dropPre "</object>".toList
          ((m'.map childXml).flatten ++ "</object>".toList)) = some m' :=
      ih fuel (by simp only [List.length_cons] at hlen2; omega)
        (fun x hx => hnames x (List.mem_cons_of_mem _ hx))
    simp only [parseChildren]
    rw [dropPre_close_object k0 _ hk0.2.2.2.1]
    simp only [parseChildrenGo, List.append_assoc, List.cons_append,
      List.singleton_append, List.nil_append, hn, ht, hd, ihres]

/-- **C8.** Serializing any record whose attribute keys are well-formed
element names yields a UTF-8-declared document with a single root
element `object` and one child per entry, escaped so that parsing the
document as markup recovers every entry — keys and values, including
values containing `<`, `&`, or `"` — unchanged. -/
theorem to_xml_round_trip (m : List (List Char × List Char))
    (hnames : ∀ kv ∈ m, nameOk kv.1 = true) :
    parseXmlDoc (to_xml m) = some m := by
  by_cases hm : m = []
  · subst hm; decide
  · have hobj : dropPre "<object/>".toList
        ("<object>".toList ++ ((m.map childXml).flatten ++ "</object>".toList)) = none := by
      show dropPre ('<' :: 'o' :: 'b' :: 'j' :: 'e' :: 'c' :: 't' :: '/' :: ['>'])
        ('<' :: 'o' :: 'b' :: 'j' :: 'e' :: 'c' :: 't' :: '>'
          :: ((m.map childXml).flatten ++ "</object>".toList)) = none
      simp [dropPre]
    have hlen : m.length ≤ ((m.map childXml).flatten ++ "</object>".toList).length := by
      calc m.length ≤ (m.map childXml).flatten.length := by
            have hall : ∀ (l : List (List Char × List Char)),
                l.length ≤ (l.map childXml).flatten.length := by
              intro l
              induction l with
              | nil => simp
              | cons kv l' ihl =>
                rw [List.map_cons, List.flatten_cons, List.length_append, List.length_cons]
                have h1 : 1 ≤ (childXml kv).length := by
                  rw [childXml]
                  simp
                omega
            exact hall m
        _ ≤ ((m.map childXml).flatten ++ "</object>".toList).length := by
            simp
    have hpc := parseChildren_round m
      ((m.map childXml).flatten ++ "</object>".toList).length hlen hnames
    rw [to_xml, if_neg hm]
    simp only [parseXmlDoc, List.append_assoc, dropPre_append, hobj, hpc]

/-- **C8 witness**: a record with a value containing `<`, `&`, and `"`
round-trips through serialization and markup re-parsing. -/
theorem to_xml_round_trip_witness :
    parseXmlDoc (to_xml [("cn".toList, "a<b&c\"d>e".toList)])
      = some [("cn".toList, "a<b&c\"d>e".toList)] := by
  exact to_xml_round_trip [("cn".toList, "a<b&c\"d>e".toList)] (by decide)

/-! ## Theorems: person extraction (C5) and referential integrity (C10) -/

/-- `resolveRefs` is exactly the resolving group references, in order. -/
theorem resolveRefs_eq_filterMap (groups : List (List Char × GroupRec))
    (s : List Char) (ms : List (List Char)) :
    resolveRefs groups s ms =
      ms.filterMap (fun mref =>
        (dictLookup mref groups).map (fun g => (s, g.objectGUID))) := by
  induction ms with
  | nil => rfl
  | cons mref ms' ih =>
    rw [List.filterMap_cons]
    cases h : dictLookup mref groups with
    | none => simp only [resolveRefs, h, Option.map_none']; exact ih
    | some g => simp only [resolveRefs, h, Option.map_some']; rw [ih]

/-- Per-entry characterization of the person extraction body (helper
shared by the edge/person theorem and the integrity invariant). -/
theorem processEntry_spec (groups : List (List Char × GroupRec))
    (md5hex : List Char → List Char) (key : List Char) (e : UserEntry) :
    (processEntry groups md5hex key e).2 =
        (e.memberOf.getD []).filterMap (fun mref =>
          (dictLookup mref groups).map (fun g => (e.objectGUID, g.objectGUID)))
      ∧ ((processEntry groups md5hex key e).1.isSome
          ↔ (processEntry groups md5hex key e).2 ≠ []) := by
  cases hmo : e.memberOf with
  | none => simp [processEntry, hmo]
  | some ms =>
    by_cases hms : ms = []
    · subst hms; simp [processEntry, hmo]
    · have hsplit : processEntry groups md5hex key e =
          (if resolveRefs groups e.objectGUID ms = []
           then ((none : Option PersonRec), ([] : List Edge))
           else (some (mkPerson md5hex key e), resolveRefs groups e.objectGUID ms)) := by
        simp only [processEntry, hmo, hms, if_false, ite_false]
      by_cases hed : resolveRefs groups e.objectGUID ms = []
      · rw [hsplit, if_pos hed]
        refine ⟨?_, by simp⟩
        simp only [hmo, Option.getD_some]
        rw [← resolveRefs_eq_filterMap]
        exact hed.symm
      · rw [hsplit, if_neg hed]
        refine ⟨?_, ?_⟩
        · simp only [hmo, Option.getD_some]
          exact resolveRefs_eq_filterMap groups e.objectGUID ms
        · simp [hed]

/-- **C5.** For every person entry: one `MembershipEdge` is produced per
group-reference value that resolves in the cycle's group index (in
reference order), and a `PersonRecord` is produced if and only if at
least one reference resolved.  In particular an entry whose only
reference is unknown yields no person and no edge, and an entry with
one resolvable and one unresolvable reference yields exactly one edge
and exactly one person. -/
theorem person_extraction_edges_and_person
    (groups : List (List Char × GroupRec))
    (md5hex : List Char → List Char) (key : List Char) (e : UserEntry) :
    (processEntry groups md5hex key e).2 =
        (e.memberOf.getD []).filterMap (fun mref =>
          (dictLookup mref groups).map (fun g => (e.objectGUID, g.objectGUID)))
      ∧ ((processEntry groups md5hex key e).1.isSome
          ↔ (processEntry groups md5hex key e).2 ≠ []) :=
  processEntry_spec groups md5hex key e

/-- A successful dictionary lookup returns a value stored in the list. -/
theorem dictLookup_mem {α : Type} (k : List Char) (v : α) :
    ∀ l : List (List Char × α), dictLookup k l = some v → (k, v) ∈ l := by
  intro l
  induction l with
  | nil => intro h; exact absurd h (by simp [dictLookup])
  | cons kv rest ih =>
    obtain ⟨k', v'⟩ := kv
    intro h
    simp only [dictLookup] at h
    by_cases hk : k = k'
    · rw [if_pos hk] at h
      obtain rfl : v' = v := Option.some.inj h
      rw [List.mem_cons]
      left
      rw [hk]
    · rw [if_neg hk] at h
      exact List.mem_cons_of_mem _ (ih h)

/-- When an entry yields a person, it is the entry's own person record,
whose global identifier is the entry's. -/
theorem processEntry_person_guid (groups : List (List Char × GroupRec))
    (md5hex : List Char → List Char) (key : List Char) (e : UserEntry)
    (p : PersonRec) (h : (processEntry groups md5hex key e).1 = some p) :
    p.objectGUID = e.objectGUID := by
  cases hmo : e.memberOf with
  | none => simp [processEntry, hmo] at h
  | some ms =>
    simp only [processEntry, hmo] at h
    by_cases hms : ms = []
    · rw [if_pos hms] at h; exact absurd h (by simp)
    · rw [if_neg hms] at h
      by_cases hed : resolveRefs groups e.objectGUID ms = []
      · rw [if_pos hed] at h; exact absurd h (by simp)
      · rw [if_neg hed] at h
        obtain rfl : mkPerson md5hex key e = p := Option.some.inj h
        rfl

/-- The extraction fold preserves referential integrity of the
accumulated person/edge lists. -/
theorem extractPersons_integrity (groups : List (List Char × GroupRec))
    (md5hex : List Char → List Char) (key : List Char)
    (entries : List UserEntry) :
    ∀ acc : Extract,
      (∀ x ∈ acc.2, (∃ p ∈ acc.1, p.objectGUID = x.1)
          ∧ ∃ kv ∈ groups, kv.2.objectGUID = x.2) →
      ∀ x ∈ (entries.foldl (extractStep groups md5hex key) acc).2,
        (∃ p ∈ (entries.foldl (extractStep groups md5hex key) acc).1,
            p.objectGUID = x.1)
        ∧ ∃ kv ∈ groups, kv.2.objectGUID = x.2 := by
  induction entries with
  | nil => intro acc hacc; exact hacc
  | cons e es ih =>
    intro acc hacc
    rw [List.foldl_cons]
    apply ih
    intro x hx
    rw [extractStep] at hx ⊢
    by_cases hdn : e.dn = []
    · rw [if_pos hdn] at hx ⊢
      exact hacc x hx
    · rw [if_neg hdn] at hx ⊢
      rcases List.mem_append.mp hx with hxa | hxe
      · obtain ⟨⟨p, hp, hpg⟩, hgrp⟩ := hacc x hxa
        exact ⟨⟨p, List.mem_append.mpr (Or.inl hp), hpg⟩, hgrp⟩
      · have hspec := processEntry_spec groups md5hex key e
        have hxe' := hxe
        rw [hspec.1] at hxe'
        obtain ⟨mref, hmref, hmap⟩ := List.mem_filterMap.mp hxe'
        cases hdl : dictLookup mref groups with
        | none => rw [hdl] at hmap; exact absurd hmap (by simp)
        | some g =>
          rw [hdl] at hmap
          simp only [Option.map_some'] at hmap
          have hx2 : x = (e.objectGUID, g.objectGUID) := (Option.some.inj hmap).symm
          have hne : (processEntry groups md5hex key e).2 ≠ [] := by
            intro h
            rw [h] at hxe
            exact absurd hxe (List.not_mem_nil x)
          have hsome : (processEntry groups md5hex key e).1.isSome := hspec.2.mpr hne
          obtain ⟨p, hp⟩ := Option.isSome_iff_exists.mp hsome
          have hpg : p.objectGUID = e.objectGUID :=
            processEntry_person_guid groups md5hex key e p hp
          refine ⟨⟨p, ?_, ?_⟩, ?_⟩
          · refine List.mem_append.mpr (Or.inr ?_)
            rw [hp]
            exact List.mem_singleton.mpr rfl
          · rw [hpg, hx2]
          · exact ⟨(mref, g), dictLookup_mem mref g groups hdl, by rw [hx2]⟩

/-- **C10.** Referential integrity of the extracted snapshot: every
membership edge produced in a cycle joins the global identifier of a
person record emitted in that cycle to the global identifier of a group
record extracted in that cycle — no edge dangles on either side. -/
theorem extraction_referential_integrity (gentries : List GroupEntry)
    (uentries : List UserEntry) (md5hex : List Char → List Char)
    (key : List Char) :
    ∀ x ∈ (extractPersons (extractGroups gentries) md5hex key uentries).2,
      (∃ p ∈ (extractPersons (extractGroups gentries) md5hex key uentries).1,
          p.objectGUID = x.1)
      ∧ ∃ kv ∈ extractGroups gentries, kv.2.objectGUID = x.2 := by
  have h := extractPersons_integrity (extractGroups gentries) md5hex key
    uentries ([], []) (fun x hx => absurd hx (List.not_mem_nil x))
  exact h

/-- **C10 witness**: one group entry and one member user — the produced
edge joins an emitted person to an extracted group. -/
theorem extraction_referential_integrity_witness :
    (∃ p ∈ (extractPersons (extractGroups [gEnt]) md5Ex "k".toList [uEnt]).1,
        p.objectGUID = "GU".toList)
    ∧ ∃ kv ∈ extractGroups [gEnt], kv.2.objectGUID = "GG".toList :=
  extraction_referential_integrity [gEnt] [uEnt] md5Ex "k".toList
    ("GU".toList, "GG".toList) (by decide)

/-! ## Theorems: the paged user search (C6, C2) -/

/-- A served response chain is never empty. -/
theorem serves_ne_nil {srv : List Char → PageResp} {c : List Char}
    {rs : List PageResp} (h : Serves srv c rs) : rs ≠ [] := by
  cases h <;> simp

/-- `warnedAtEnd` ignores all but the last response. -/
theorem warnedAtEnd_cons (r : PageResp) (rs : List PageResp) (h : rs ≠ []) :
    warnedAtEnd (r :: rs) = warnedAtEnd rs := by
  cases rs with
  | nil => exact absurd rfl h
  | cons r' rs' => rfl

/-- The paging loop against a server that serves the chain `rs`: it
performs exactly `rs.length` further search calls, processes the pages'
entries in order, and reports whether the final page lacked a paging
control. -/
theorem pagingGo_serves (groups : List (List Char × GroupRec))
    (md5hex : List Char → List Char) (key : List Char)
    (srv : List Char → PageResp) (c : List Char) (rs : List PageResp)
    (h : Serves srv c rs) :
    ∀ fuel pages acc, pages + rs.length ≤ 999 → 999 < pages + fuel →
      pagingGo groups md5hex key srv fuel c pages acc =
        .ok ⟨((rs.map PageResp.entries).flatten).foldl
              (extractStep groups md5hex key) acc,
             pages + rs.length, warnedAtEnd rs⟩ := by
  induction h with
  | done c hc =>
    intro fuel pages acc hb hf
    cases fuel with
    | zero => omega
    | succ f =>
      have hnb : ¬ (pages + 1 > 999) := by
        simp only [List.length_cons, List.length_nil] at hb
        omega
      simp [pagingGo, hnb, hc, warnedAtEnd]
  | ignored c hc =>
    intro fuel pages acc hb hf
    cases fuel with
    | zero => omega
    | succ f =>
      have hnb : ¬ (pages + 1 > 999) := by
        simp only [List.length_cons, List.length_nil] at hb
        omega
      simp [pagingGo, hnb, hc, warnedAtEnd]
  | step c c' rs hc hne hrs ih =>
    intro fuel pages acc hb hf
    cases fuel with
    | zero =>
      have := serves_ne_nil hrs
      simp only [List.length_cons] at hb
      omega
    | succ f =>
      have hnb : ¬ (pages + 1 > 999) := by
        simp only [List.length_cons] at hb
        omega
      have hih := ih f (pages + 1)
        ((srv c).entries.foldl (extractStep groups md5hex key) acc)
        (by simp only [List.length_cons] at hb; omega) (by omega)
      simp only [pagingGo, hnb, if_false, ite_false, hc, hne, hih]
      rw [warnedAtEnd_cons _ _ (serves_ne_nil hrs)]
      simp only [List.map_cons, List.flatten_cons, List.foldl_append, List.length_cons]
      have heq : pages + 1 + rs.length = pages + (rs.length + 1) := by omega
      rw [heq]

/-- **C6.** A cycle's user search against a server that serves the
`N`-response chain `rs` from the empty initial cookie (a continuation
cookie on all but the last response; the last carrying either the empty
end-of-paging cookie or no paging control at all, the latter with the
ignores-RFC-2696 warning) terminates after exactly `N` search calls and
processes exactly the in-order concatenation of all pages' entries —
no duplication, no loss. -/
theorem usersPaging_serves (groups : List (List Char × GroupRec))
    (md5hex : List Char → List Char) (key : List Char)
    (srv : List Char → PageResp) (rs : List PageResp)
    (h : Serves srv [] rs) (hN : rs.length ≤ 999) :
    usersPaging groups md5hex key srv =
      .ok ⟨extractPersons groups md5hex key ((rs.map PageResp.entries).flatten),
           rs.length, warnedAtEnd rs⟩ := by
  have hgo := pagingGo_serves groups md5hex key srv [] rs h 1000 0 ([], [])
    (by omega) (by omega)
  rw [usersPaging, hgo]
  simp [extractPersons]

/-- **C6 witness**: a three-page server — exactly 3 search calls, no
warning. -/
theorem usersPaging_serves_witness :
    usersPaging [] md5Ex [] srvEx = .ok ⟨([], []), 3, false⟩ := by
  have hserves : Serves srvEx [] [srvEx [], srvEx ['a'], srvEx ['b']] := by
    refine Serves.step [] ['a'] _ (by decide) (by decide) ?_
    refine Serves.step ['a'] ['b'] _ (by decide) (by decide) ?_
    exact Serves.done ['b'] (by decide)
  have h := usersPaging_serves [] md5Ex [] srvEx _ hserves (by decide)
  rw [h]
  exact congrArg Except.ok (by decide)

/-- Against a server that always returns a non-empty continuation
cookie, the paging loop always raises (the page counter passes 999). -/
theorem pagingGo_overflow (groups : List (List Char × GroupRec))
    (md5hex : List Char → List Char) (key : List Char)
    (srv : List Char → PageResp)
    (h : ∀ c, ∃ c', (srv c).control = some c' ∧ c' ≠ []) :
    ∀ fuel cookie pages acc,
      pagingGo groups md5hex key srv fuel cookie pages acc = .error () := by
  intro fuel
  induction fuel with
  | zero => intro cookie pages acc; rfl
  | succ f ih =>
    intro cookie pages acc
    obtain ⟨c', hc', hne⟩ := h cookie
    by_cases hb : pages + 1 > 999
    · simp [pagingGo, hb]
    · simp [pagingGo, hb, hc', hne, ih]

/-- **C2 (amended).** When the paged user search exceeds 999 pages the
defensive `Exception` is raised and the cycle aborts — but the raise at
`main.py` line 97 sits outside both `try` blocks of the main loop, so
the exception propagates out of `while True` and terminates the
process: the loop does *not* retry the cycle. -/
theorem page_bound_exceeded_crashes (cfg : ConfigModel) (bindOk : Bool)
    (gentries : List GroupEntry) (md5hex : List Char → List Char)
    (key : List Char) (srv : List Char → PageResp)
    (hcfg : configValid cfg = true) (hbind : bindOk = true)
    (h : ∀ c, ∃ c', (srv c).control = some c' ∧ c' ≠ []) :
    mainIteration cfg bindOk gentries md5hex key srv = ⟨true, .crashed⟩ := by
  have hov := pagingGo_overflow (extractGroups gentries) md5hex key srv h
    1000 [] 0 ([], [])
  simp [mainIteration, hcfg, hbind, usersPaging, hov]

/-- **C2 witness**: concrete never-ending server with a valid
configuration and successful bind — the iteration crashes the process. -/
theorem page_bound_exceeded_crashes_witness :
    mainIteration cfgOracleOnly true [] md5Ex [] srvBad = ⟨true, .crashed⟩ :=
  page_bound_exceeded_crashes cfgOracleOnly true [] md5Ex [] srvBad
    (by decide) rfl (fun _ => ⟨['x'], rfl, by decide⟩)

set_option maxRecDepth 8000 in
/-- **C2 counterexample.** The claim says the process does not crash and
the loop retries on the next scheduled iteration; on this concrete
never-ending server the iteration instead ends in the uncaught-raise
state (`crashed`), i.e. the exception escapes the main loop. -/
theorem page_bound_claim_counterexample :
    mainIteration cfgPgOnly true [] md5Ex [] srvBad = ⟨true, .crashed⟩ := by
  decide

/-! ## Theorems: configuration validation (C9) -/

/-- **C9.** `check_single_db` succeeds exactly when one backend block is
configured; with zero or two blocks present, the main-loop iteration
ends in `retryConfig` with no directory connection attempted. -/
theorem check_single_db_exclusive (o p rest bindOk : Bool)
    (gentries : List GroupEntry) (md5hex : List Char → List Char)
    (key : List Char) (srv : List Char → PageResp) :
    (isOkB (check_single_db o p) = true ↔ o ≠ p)
    ∧ (o = p →
        mainIteration ⟨o, p, rest⟩ bindOk gentries md5hex key srv
          = ⟨false, .retryConfig⟩) := by
  constructor
  · cases o <;> cases p <;> simp [check_single_db, isOkB]
  · intro hop
    have hvalid : configValid ⟨o, p, rest⟩ = false := by
      subst hop
      cases o <;> cases rest <;> decide
    simp [mainIteration, hvalid]

/-- **C9 witness**: both backends configured — validation fails and no
bind is attempted. -/
theorem check_single_db_exclusive_witness :
    (isOkB (check_single_db true true) = true ↔ (true : Bool) ≠ true)
    ∧ mainIteration ⟨true, true, true⟩ true [] md5Ex [] srvEx
        = ⟨false, .retryConfig⟩ :=
  ⟨(check_single_db_exclusive true true true true [] md5Ex [] srvEx).1,
   (check_single_db_exclusive true true true true [] md5Ex [] srvEx).2 rfl⟩

/-! ## Theorems: persistence Variant A (C7) -/

namespace PgDatabase

/-- Running a call list on a backend that never raises: every call is
executed in order, every sentinel mismatch contributes exactly one item
error, and nothing aborts. -/
theorem pgRunList_all_ok (backend : PgCall → Except Unit (List Char)) :
    ∀ (cs : List PgCall) (st : PgRun),
      (∀ c ∈ cs, isOkB (backend c) = true) →
      pgRunList backend st cs =
        .ok ⟨st.calls ++ cs, st.errors ++ cs.filter (pgMismatch backend),
             st.commits⟩ := by
  intro cs
  induction cs with
  | nil => intro st h; simp [pgRunList]
  | cons c cs' ih =>
    intro st h
    have hc := h c (List.mem_cons_self _ _)
    cases hb : backend c with
    | error e => rw [hb] at hc; exact absurd hc (by simp [isOkB])
    | ok r =>
      simp only [pgRunList, pgStep, hb]
      rw [ih _ (fun x hx => h x (List.mem_cons_of_mem _ hx))]
      by_cases hr : r = pgSuccess
      · simp [hr, List.filter_cons, pgMismatch, hb]
      · simp [hr, List.filter_cons, pgMismatch, hb]

/-- **C7.** Variant A with a backend that never raises: every item whose
fetched result differs from the literal sentinel `'(0,Success)'`
produces exactly one logged item error and aborts nothing — all items
and the finalize call are executed in submission order, and the
transaction commits exactly once, after finalize, regardless of item
errors. -/
theorem save_and_sync_spec (backend : PgCall → Except Unit (List Char))
    (groups persons : List (List Char))
    (memberships : List (List Char × List Char))
    (h : ∀ c ∈ pgAllCalls groups persons memberships, isOkB (backend c) = true) :
    save_and_sync backend groups persons memberships =
      ⟨pgAllCalls groups persons memberships,
       (pgAllCalls groups persons memberships).filter (pgMismatch backend),
       1⟩ := by
  simp only [save_and_sync]
  rw [pgRunList_all_ok backend _ ⟨[], [], 0⟩ h]
  simp

/-- **C7 witness**: three groups, the second failing its sentinel check —
exactly one item error (the second group), the third group and the
finalize call still executed, one commit. -/
theorem save_and_sync_spec_witness :
    save_and_sync pgBackendEx ["g1".toList, "g2".toList, "g3".toList] [] [] =
      ⟨[.group "g1".toList, .group "g2".toList, .group "g3".toList, .runSync],
       [.group "g2".toList], 1⟩ := by
  have h := save_and_sync_spec pgBackendEx
    ["g1".toList, "g2".toList, "g3".toList] [] [] (by decide)
  rw [h]
  decide

end PgDatabase

/-! ## Theorems: persistence Variant B (C1) -/

namespace OracleDatabase

/-- Folding xml items produces one `execXml` per item, in order. -/
theorem ora_fold_xml (s : List Char) (gs : List (List Char)) :
    ∀ acc, (gs.map OraItem.xmlItem).foldl
        (fun acc it =>
          match it with
          | OraItem.xmlItem xml => acc ++ [OraCall.execXml s xml]
          | OraItem.pairItem _ _ => acc) acc
      = acc ++ gs.map (fun x => OraCall.execXml s x) := by
  induction gs with
  | nil => intro acc; simp
  | cons g gs' ih =>
    intro acc
    simp only [List.map_cons, List.foldl_cons]
    rw [ih]
    simp

/-- Folding pair items produces one `execPair` per item, in order. -/
theorem ora_fold_pair (s : List Char) (ms : List (List Char × List Char)) :
    ∀ acc, (ms.map (fun pg => OraItem.pairItem pg.1 pg.2)).foldl
        (fun acc it =>
          match it with
          | OraItem.pairItem p g => acc ++ [OraCall.execPair s p g]
          | OraItem.xmlItem _ => acc) acc
      = acc ++ ms.map (fun pg => OraCall.execPair s pg.1 pg.2) := by
  induction ms with
  | nil => intro acc; simp
  | cons m ms' ih =>
    intro acc
    simp only [List.map_cons, List.foldl_cons]
    rw [ih]
    simp

/-- The groups phase: because `save` compares `target` (set to
`'group'`) against the five-letter string `'groups'`, the comparison is
always false and every group document is executed via the **person**
procedure. -/
theorem save_groups_via_persons_sql (gs : List (List Char)) :
    save groups_sql (gs.map OraItem.xmlItem)
      = gs.map (fun x => OraCall.execXml persons_sql x) := by
  rw [save, if_pos (Or.inl rfl)]
  have htarget : (if groups_sql = groups_sql
      then "group".toList else "person".toList) = "group".toList := if_pos rfl
  rw [htarget]
  have hsql : (if "group".toList = "groups".toList
      then groups_sql else persons_sql) = persons_sql := by decide
  simp only [hsql]
  rw [ora_fold_xml persons_sql gs []]
  simp

/-- The persons phase executes every person document via the person
procedure. -/
theorem save_persons_via_persons_sql (ps : List (List Char)) :
    save persons_sql (ps.map OraItem.xmlItem)
      = ps.map (fun x => OraCall.execXml persons_sql x) := by
  rw [save, if_pos (Or.inr rfl)]
  have htarget : (if persons_sql = groups_sql
      then "group".toList else "person".toList) = "person".toList :=
    if_neg (by decide)
  rw [htarget]
  have hsql : (if "person".toList = "groups".toList
      then groups_sql else persons_sql) = persons_sql := by decide
  simp only [hsql]
  rw [ora_fold_xml persons_sql ps []]
  simp

/-- The memberships phase executes every pair via the membership
procedure. -/
theorem save_memberships_pairs (ms : List (List Char × List Char)) :
    save memberships_sql (ms.map (fun pg => OraItem.pairItem pg.1 pg.2))
      = ms.map (fun pg => OraCall.execPair memberships_sql pg.1 pg.2) := by
  rw [save, if_neg (by decide)]
  rw [ora_fold_pair memberships_sql ms []]
  simp

/-- **C1 (amended).** `save_and_sync` submits the three phases in
sequence on one connection and in one transaction: groups and persons
are both submitted via the person procedure (the group-procedure branch
is dead code, because `target == 'groups'` compares `'group'` with
`'groups'`), memberships via the membership procedure; then the
finalize procedure runs and a **single** commit follows — there is no
per-phase commit. -/
theorem save_and_sync_trace (gs ps : List (List Char))
    (ms : List (List Char × List Char)) :
    save_and_sync gs ps ms =
      gs.map (fun x => OraCall.execXml persons_sql x)
      ++ ps.map (fun x => OraCall.execXml persons_sql x)
      ++ ms.map (fun pg => OraCall.execPair memberships_sql pg.1 pg.2)
      ++ [OraCall.execSync run_sync_sql, OraCall.commit] := by
  rw [save_and_sync, save_groups_via_persons_sql, save_persons_via_persons_sql,
    save_memberships_pairs]

/-- **C1 counterexample.** With one group and nothing else, the claimed
behaviour (group submitted via the group procedure; each phase
committed as its own transaction) fails: the trace contains exactly one
commit (so the three phases cannot each have committed separately), it
executes the group document via the person procedure, and it never
executes the group procedure. -/
theorem save_and_sync_single_commit_counterexample :
    (save_and_sync ["<g/>".toList] [] []).count OraCall.commit = 1
    ∧ OraCall.execXml persons_sql "<g/>".toList
        ∈ save_and_sync ["<g/>".toList] [] []
    ∧ OraCall.execXml groups_sql "<g/>".toList
        ∉ save_and_sync ["<g/>".toList] [] [] := by
  decide

end OracleDatabase

end LdapSync
